import Mathlib

/-!
Verification of the user-analytics metrics pipeline (`src/active_user.py`).

The pandas program is shallowly embedded as follows:

* a pandas timestamp at day granularity is a `Date` record `(year, month, day)`;
  datetime comparison and `timedelta` arithmetic act on the proleptic-Gregorian
  ordinal `Date.serial` (the same day numbering as Python's `date.toordinal`,
  with `0001-01-01 ↦ 1`, a Monday);
* `to_period('M')` is `Date.monthIdx` (`12 * year + (month - 1)`); adding one to
  a monthly period adds one to the index; `Period.to_timestamp` for a monthly
  period is `firstOfMonthSerial`, the ordinal of the first day of the month;
* a DataFrame loaded by `load_data` is a `DataFrame`: its `user_id`/`date`
  rows plus the derived columns (`Cohort`, `CohortPeriod`, `Month`) that the
  program writes onto the frame in place; column assignment is `setCol`;
* `groupby(k)` sorts the distinct keys ascending (`sortedKeys`) and aggregates
  the rows of each key; `nunique` is `List.dedup.length`;
* Python exceptions are `Except PyError`:  `calculate_retention` on an empty
  log divides `0 / 0` (`zeroDivisionErr`), `monthly_users[month + 1]` on a
  month absent from the index raises `KeyError` (`keyErr`), and
  `pd.Series({}).index.to_timestamp()` on the empty churn dict raises
  `AttributeError` (`attributeErr`), as does `cohort_pivot.iloc[:, 0]` on an
  empty pivot (`indexErr`, an `IndexError`);
* float ratios are modelled as exact rationals; pandas `.round(3)` is `round3`,
  decimal rounding with ties to even; `NaN` cells of the dense cohort pivot
  (cohort × period combinations with no observed activity) are simply absent
  from the sparse `retMatrix` association list.
-/

namespace UserAnalytics

/-- A calendar date, the day-granular content of one parsed `date` cell. -/
structure Date where
  year : ℕ
  month : ℕ
  day : ℕ
deriving DecidableEq

/-- Gregorian leap-year test. -/
def isLeap (y : ℕ) : Bool :=
  (y % 4 == 0 && y % 100 != 0) || y % 400 == 0

/-- Length of a calendar month (`0` for a nonsense month number). -/
def daysInMonth (leap : Bool) : ℕ → ℕ
  | 1 => 31
  | 2 => if leap then 29 else 28
  | 3 => 31
  | 4 => 30
  | 5 => 31
  | 6 => 30
  | 7 => 31
  | 8 => 31
  | 9 => 30
  | 10 => 31
  | 11 => 30
  | 12 => 31
  | _ => 0

/-- Days strictly before the first of month `m` within one year. -/
def daysBeforeMonth (leap : Bool) : ℕ → ℕ
  | 1 => 0
  | 2 => 31
  | 3 => if leap then 60 else 59
  | 4 => if leap then 91 else 90
  | 5 => if leap then 121 else 120
  | 6 => if leap then 152 else 151
  | 7 => if leap then 182 else 181
  | 8 => if leap then 213 else 212
  | 9 => if leap then 244 else 243
  | 10 => if leap then 274 else 273
  | 11 => if leap then 305 else 304
  | 12 => if leap then 335 else 334
  | _ => 0

/-- Days in all years `1 .. y` of the proleptic Gregorian calendar. -/
def yearDays (y : ℕ) : ℕ :=
  365 * y + (y / 4 - y / 100) + y / 400

/-- Proleptic-Gregorian ordinal of a date (`0001-01-01 ↦ 1`), the number the
pandas datetime order and `timedelta` arithmetic act on. -/
def Date.serial (d : Date) : ℕ :=
  yearDays (d.year - 1) + daysBeforeMonth (isLeap d.year) d.month + d.day

/-- The monthly period of a date: `to_period('M')` as a month count. -/
def Date.monthIdx (d : Date) : ℕ :=
  12 * d.year + (d.month - 1)

/-- A well-formed calendar date, the §3 input invariant of the spec. -/
def Date.Valid (d : Date) : Prop :=
  1 ≤ d.year ∧ 1 ≤ d.month ∧ d.month ≤ 12 ∧ 1 ≤ d.day ∧
    d.day ≤ daysInMonth (isLeap d.year) d.month

instance (d : Date) : Decidable d.Valid := by
  unfold Date.Valid
  infer_instance

/-- `Period.to_timestamp` of a monthly period: ordinal of the month's first day. -/
def firstOfMonthSerial (k : ℕ) : ℕ :=
  Date.serial ⟨k / 12, k % 12 + 1, 1⟩

/-- One `(user_id, date)` record of the event log. -/
structure Event where
  user_id : ℕ
  date : Date
deriving DecidableEq

/-- Names of the derived columns the program assigns onto the frame. -/
inductive ColName
  | cohort
  | cohortPeriod
  | month
deriving DecidableEq

/-- The mutable DataFrame: the immutable `(user_id, date)` rows together with
whatever derived integer columns have been written onto the frame. -/
structure DataFrame where
  rows : List Event
  extra : List (ColName × List ℤ)
deriving DecidableEq

/-- Column assignment `data[c] = vals`: overwrite the column if present,
append it otherwise. -/
def setCol (df : DataFrame) (c : ColName) (vals : List ℤ) : DataFrame :=
  if df.extra.any (fun p => p.1 = c) then
    ⟨df.rows, df.extra.map (fun p => if p.1 = c then (c, vals) else p)⟩
  else
    ⟨df.rows, df.extra ++ [(c, vals)]⟩

/-- Python exceptions that the metric computations can raise. -/
inductive PyError
  | zeroDivisionErr
  | keyErr
  | attributeErr
  | indexErr
deriving DecidableEq

/-- Distinct group keys in ascending order, as produced by `groupby`. -/
def sortedKeys (l : List ℕ) : List ℕ :=
  List.insertionSort (· ≤ ·) l.dedup

/-- `nunique` of a column given as a list. -/
def nunique (l : List ℕ) : ℕ :=
  l.dedup.length

/-- Fold computing the minimum of a list of dates under the datetime order. -/
def minD : List Date → Date → Date
  | [], acc => acc
  | x :: xs, acc => minD xs (if x.serial < acc.serial then x else acc)

/-- The dates of all events of user `u`, in log order. -/
def userDates (rows : List Event) (u : ℕ) : List Date :=
  (rows.filter (fun e => e.user_id = u)).map Event.date

/-- `data.groupby('user_id')['date'].min()` for one user: the user's
first-activity date (garbage for a user absent from the log). -/
def firstActivity (rows : List Event) (u : ℕ) : Date :=
  match userDates rows u with
  | [] => ⟨0, 0, 0⟩
  | d :: ds => minD ds d

/-! ## The metric computations of `active_user.py` -/

/-- `calculate_dau` (src 17-18): distinct users per calendar day, with the
`groupby` keys (the days' ordinals) in ascending order. -/
def calculate_dau (df : DataFrame) : List (ℕ × ℕ) :=
  (sortedKeys (df.rows.map (fun e => e.date.serial))).map (fun k =>
    (k, nunique ((df.rows.filter (fun e => e.date.serial = k)).map Event.user_id)))

/-- The rows whose `date` lies within `first_activity_date + timedelta(days=n)`
(src 25-26); note the comparison has no lower bound in the source. -/
def withinRows (rows : List Event) (n : ℕ) : List Event :=
  rows.filter (fun e => e.date.serial ≤ (firstActivity rows e.user_id).serial + n)

/-- `calculate_retention` (src 21-29).  `len(unique_7_day) / len(first_activity)`
is an `int / int` float division, so the empty log raises `ZeroDivisionError`. -/
def calculate_retention (df : DataFrame) : Except PyError (ℚ × ℚ) :=
  let users : List ℕ := (df.rows.map Event.user_id).dedup
  if users.length = 0 then
    .error .zeroDivisionErr
  else
    .ok ((nunique ((withinRows df.rows 7).map Event.user_id) : ℚ) / (users.length : ℚ),
      (nunique ((withinRows df.rows 30).map Event.user_id) : ℚ) / (users.length : ℚ))

/-- `calculate_a30` (src 32-37): for each query date, the distinct users with an
event in the trailing window `[date - timedelta(days=29), date]`. -/
def calculate_a30 (df : DataFrame) (dateRange : List Date) : List ℕ :=
  dateRange.map (fun d =>
    nunique ((df.rows.filter (fun e =>
      (d.serial : ℤ) - 29 ≤ (e.date.serial : ℤ) ∧ e.date.serial ≤ d.serial)).map Event.user_id))

/-- The `Cohort` of an event's user (src 42): monthly period of the user's
minimum date, as written into the `Cohort` column. -/
def eventCohort (rows : List Event) (e : Event) : ℤ :=
  ((firstActivity rows e.user_id).monthIdx : ℤ)

/-- The `CohortPeriod` of an event (src 43): its month minus its user's cohort
month, as written into the `CohortPeriod` column. -/
def eventOffset (rows : List Event) (e : Event) : ℤ :=
  (e.date.monthIdx : ℤ) - ((firstActivity rows e.user_id).monthIdx : ℤ)

/-- The distinct `(Cohort, CohortPeriod)` group keys of src 44, in the
lexicographically ascending order `groupby` produces. -/
def cohortPairs (rows : List Event) : List (ℤ × ℤ) :=
  List.insertionSort (fun a b : ℤ × ℤ => a.1 < b.1 ∨ (a.1 = b.1 ∧ a.2 ≤ b.2))
    ((rows.map (fun e => (eventCohort rows e, eventOffset rows e))).dedup)

/-- `['user_id'].nunique()` of one `(Cohort, CohortPeriod)` group (src 44). -/
def groupNunique (rows : List Event) (c p : ℤ) : ℕ :=
  nunique ((rows.filter (fun e =>
    eventCohort rows e = c ∧ eventOffset rows e = p)).map Event.user_id)

/-- The `CohortPeriod` of the pivot's first column, `cohort_pivot.iloc[:,0]`
(src 46): the smallest observed offset. -/
def minObservedOffset (rows : List Event) : ℤ :=
  match (cohortPairs rows).map Prod.snd with
  | [] => 0
  | x :: xs => xs.foldl min x

/-- `cohort_size` of one cohort (src 46): the pivot cell of that cohort in the
first column, `none` when that cell is `NaN`. -/
def cohortSize (rows : List Event) (c : ℤ) : Option ℕ :=
  if (c, minObservedOffset rows) ∈ rows.map (fun e => (eventCohort rows e, eventOffset rows e))
  then some (groupNunique rows c (minObservedOffset rows))
  else none

/-- Decimal rounding to an integer with ties to even, as `numpy` rounds. -/
def roundHalfEven (q : ℚ) : ℤ :=
  if q - q.floor < 1 / 2 then q.floor
  else if (1 : ℚ) / 2 < q - q.floor then q.floor + 1
  else if 2 ∣ q.floor then q.floor else q.floor + 1

/-- Pandas `.round(3)`. -/
def round3 (q : ℚ) : ℚ :=
  (roundHalfEven (q * 1000) : ℚ) / 1000

/-- The retention matrix of src 47 as a sparse association list over the
observed `(Cohort, CohortPeriod)` pairs: each cell divided by the cohort's
`cohort_size` cell and rounded to 3 decimals (`none` propagates a `NaN` size). -/
def retMatrix (rows : List Event) : List ((ℤ × ℤ) × Option ℚ) :=
  (cohortPairs rows).map (fun cp =>
    (cp, (cohortSize rows cp.1).map (fun s : ℕ =>
      round3 ((groupNunique rows cp.1 cp.2 : ℚ) / (s : ℚ)))))

/-- `cohort_analysis` (src 41-48).  Writes the `Cohort` and `CohortPeriod`
columns onto the caller's frame, then groups, pivots and divides; on an empty
log the pivot has no columns and `iloc[:, 0]` raises `IndexError`. -/
def cohort_analysis (df : DataFrame) :
    Except PyError (List ((ℤ × ℤ) × Option ℚ)) × DataFrame :=
  let rows := df.rows
  let df' := setCol (setCol df .cohort (rows.map (fun e => eventCohort rows e)))
    .cohortPeriod (rows.map (fun e => eventOffset rows e))
  if rows.isEmpty then
    (.error .indexErr, df')
  else
    (.ok (retMatrix rows), df')

/-- The period kinds accepted by `calculate_active_users`. -/
inductive PeriodKind
  | dayPeriod
  | weekPeriod
  | monthPeriod
deriving DecidableEq

/-- Ordinal of the Monday starting the `W-SUN` week of ordinal `s`
(ordinal 1, `0001-01-01`, is a Monday). -/
def weekStart (s : ℕ) : ℕ :=
  s - (s - 1) % 7

/-- The `to_period` bucket of a date (src 62), keyed so that equal keys are
exactly dates of the same pandas period. -/
def bucketKey : PeriodKind → Date → ℕ
  | .dayPeriod, d => d.serial
  | .weekPeriod, d => weekStart d.serial
  | .monthPeriod, d => d.monthIdx

/-- `index.to_timestamp()` of one period bucket (src 65): the ordinal of the
period's first day. -/
def keyTimestamp : PeriodKind → ℕ → ℕ
  | .dayPeriod, k => k
  | .weekPeriod, k => k
  | .monthPeriod, k => firstOfMonthSerial k

/-- `calculate_active_users` (src 60-67): distinct users per period bucket,
keyed by the period start date, ascending. -/
def calculate_active_users (df : DataFrame) (p : PeriodKind) : List (ℕ × ℕ) :=
  (sortedKeys (df.rows.map (fun e => bucketKey p e.date))).map (fun k =>
    (keyTimestamp p k,
      nunique ((df.rows.filter (fun e => bucketKey p e.date = k)).map Event.user_id)))

/-- The `first_activity` frame of src 71: one `(user_id, min date)` row per
distinct user. -/
def firstActivityRows (rows : List Event) : List Event :=
  ((rows.map Event.user_id).dedup).map (fun u => ⟨u, firstActivity rows u⟩)

/-- `user_acquisition` (src 69-79): new users per month of first activity,
keyed by the ordinal of the month's first day. -/
def user_acquisition (df : DataFrame) : List (ℕ × ℕ) :=
  let fa := firstActivityRows df.rows
  (sortedKeys (fa.map (fun e => e.date.monthIdx))).map (fun k =>
    (firstOfMonthSerial k,
      nunique ((fa.filter (fun e => e.date.monthIdx = k)).map Event.user_id)))

/-- `monthly_users[m]` (src 87): the `.unique()` array of users of month `m`,
first occurrences first. -/
def monthlyUsers (rows : List Event) (m : ℕ) : List ℕ :=
  ((rows.filter (fun e => e.date.monthIdx = m)).map Event.user_id).dedup

/-- The churn loop of src 91-94 over the non-final months: looking up
`monthly_users[month + 1]` raises `KeyError` whenever `month + 1` carries no
events (is absent from the index `monthsAll`). -/
def churnEntries (rows : List Event) (monthsAll : List ℕ) :
    List ℕ → Except PyError (List (ℕ × ℕ))
  | [] => .ok []
  | m :: ms =>
    if (m + 1) ∈ monthsAll then
      match churnEntries rows monthsAll ms with
      | .ok rest =>
        .ok ((m, ((monthlyUsers rows m).filter
          (fun u => u ∉ monthlyUsers rows (m + 1))).length) :: rest)
      | .error e => .error e
    else
      .error .keyErr

/-- `calculate_monthly_churn` (src 82-102).  Writes the `Month` column onto the
caller's frame; iterates the sorted months except the last; converting the index
of a series built from an *empty* dict raises `AttributeError` (the index of
`pd.Series({})` is not a `PeriodIndex`); finally keys the surviving series by
the ordinal of each month's first day. -/
def calculate_monthly_churn (df : DataFrame) :
    Except PyError (List (ℕ × ℕ)) × DataFrame :=
  let rows := df.rows
  let df' := setCol df .month (rows.map (fun e => (e.date.monthIdx : ℤ)))
  let months := sortedKeys (rows.map (fun e => e.date.monthIdx))
  match churnEntries rows months months.dropLast with
  | .error e => (.error e, df')
  | .ok entries =>
    if entries.isEmpty then
      (.error .attributeErr, df')
    else
      (.ok (entries.map (fun x => (firstOfMonthSerial x.1, x.2))), df')

/-- `calculate_average_churn` (src 104-111): the arithmetic mean of the churn
series (which, when it exists, is never empty). -/
def calculate_average_churn (df : DataFrame) : Except PyError ℚ × DataFrame :=
  match calculate_monthly_churn df with
  | (.error e, df') => (.error e, df')
  | (.ok entries, df') =>
    (.ok (((entries.map (fun x => (x.2 : ℚ))).sum) / (entries.length : ℚ)), df')

/-! ## Calendar arithmetic lemmas -/

lemma daysInMonth_pos : ∀ (l : Bool), ∀ m < 13, 1 ≤ m → 1 ≤ daysInMonth l m := by
  decide

lemma daysBeforeMonth_bridge :
    ∀ (l : Bool), ∀ m1 < 13, ∀ m2 < 13, 1 ≤ m1 → m1 < m2 →
      daysBeforeMonth l m1 + daysInMonth l m1 ≤ daysBeforeMonth l m2 := by
  decide

lemma daysBeforeMonth_daysInMonth_le :
    ∀ (l : Bool), ∀ m < 13, 1 ≤ m →
      daysBeforeMonth l m + daysInMonth l m ≤ 365 + (if l then 1 else 0) := by
  decide

lemma yearDays_succ_ge (y : ℕ) : yearDays y + 365 ≤ yearDays (y + 1) := by
  unfold yearDays
  omega

lemma yearDays_succ_ge_of_leap (y : ℕ) (h : isLeap (y + 1) = true) :
    yearDays y + 366 ≤ yearDays (y + 1) := by
  simp only [isLeap, Bool.or_eq_true, Bool.and_eq_true, beq_iff_eq, bne_iff_ne,
    ne_eq] at h
  unfold yearDays
  omega

lemma yearDays_mono {a b : ℕ} (h : a ≤ b) : yearDays a ≤ yearDays b := by
  unfold yearDays
  omega

/-- The ordinal strictly respects the lexicographic calendar order of valid
dates. -/
lemma serial_lt_of_lex {d1 d2 : Date} (h1 : d1.Valid) (h2 : d2.Valid)
    (h : d1.year < d2.year ∨ (d1.year = d2.year ∧
      (d1.month < d2.month ∨ (d1.month = d2.month ∧ d1.day < d2.day)))) :
    d1.serial < d2.serial := by
  obtain ⟨hy1, hm1, hm1', hd1, hd1'⟩ := h1
  obtain ⟨hy2, hm2, hm2', hd2, hd2'⟩ := h2
  rcases h with hy | ⟨hy, hm | ⟨hm, hd⟩⟩
  · have b1 : d1.serial ≤ yearDays (d1.year - 1) + 365 +
        (if isLeap d1.year then 1 else 0) := by
      have := daysBeforeMonth_daysInMonth_le (isLeap d1.year) d1.month (by omega) hm1
      unfold Date.serial
      omega
    have b2 : yearDays (d1.year - 1) + 365 + (if isLeap d1.year then 1 else 0) ≤
        yearDays d1.year := by
      have hyy : d1.year - 1 + 1 = d1.year := by omega
      by_cases hl : isLeap d1.year = true
      · rw [if_pos hl]
        have h366 := yearDays_succ_ge_of_leap (d1.year - 1) (by rw [hyy]; exact hl)
        rw [hyy] at h366
        omega
      · rw [if_neg hl]
        have h365 := yearDays_succ_ge (d1.year - 1)
        rw [hyy] at h365
        omega
    have b3 : yearDays d1.year ≤ yearDays (d2.year - 1) :=
      yearDays_mono (by omega)
    have b4 : yearDays (d2.year - 1) + 1 ≤ d2.serial := by
      unfold Date.serial
      omega
    omega
  · have hleq : isLeap d2.year = isLeap d1.year := by rw [hy]
    have := daysBeforeMonth_bridge (isLeap d1.year) d1.month (by omega) d2.month
      (by omega) hm1 hm
    unfold Date.serial
    rw [hy, hleq]
    omega
  · unfold Date.serial
    rw [hy, hm]
    omega

/-- Datetime order implies monthly-period order, on valid dates. -/
lemma monthIdx_le_of_serial_le {d1 d2 : Date} (h1 : d1.Valid) (h2 : d2.Valid)
    (h : d1.serial ≤ d2.serial) : d1.monthIdx ≤ d2.monthIdx := by
  by_contra hc
  push_neg at hc
  have hlex : d2.year < d1.year ∨ (d2.year = d1.year ∧ d2.month < d1.month) := by
    have e1 := h1.1
    have e2 := h1.2.1
    have e3 := h1.2.2.1
    have e4 := h2.2.1
    have e5 := h2.2.2.1
    unfold Date.monthIdx at hc
    omega
  have : d2.serial < d1.serial := by
    rcases hlex with hy | ⟨hy, hm⟩
    · exact serial_lt_of_lex h2 h1 (Or.inl hy)
    · exact serial_lt_of_lex h2 h1 (Or.inr ⟨hy, Or.inl hm⟩)
  omega

/-- Validity of the first day of the month with index `k ≥ 12`. -/
lemma firstOfMonth_valid {k : ℕ} (hk : 12 ≤ k) :
    (Date.mk (k / 12) (k % 12 + 1) 1).Valid := by
  unfold Date.Valid
  dsimp only
  refine ⟨by omega, by omega, by omega, le_refl 1, ?_⟩
  exact daysInMonth_pos (isLeap (k / 12)) (k % 12 + 1) (by omega) (by omega)

/-- The ordinal of a month's first day is strictly monotone in the month
index, from genuine month indices on. -/
lemma firstOfMonthSerial_lt {k1 k2 : ℕ} (hk : 12 ≤ k1) (h : k1 < k2) :
    firstOfMonthSerial k1 < firstOfMonthSerial k2 := by
  unfold firstOfMonthSerial
  apply serial_lt_of_lex (firstOfMonth_valid hk) (firstOfMonth_valid (by omega))
  dsimp only
  omega

/-- A valid date's month index determines the date's year and month. -/
lemma monthIdx_ge_twelve {d : Date} (h : d.Valid) : 12 ≤ d.monthIdx := by
  have := h.1
  unfold Date.monthIdx
  omega

/-! ## First-activity resolution -/

lemma minD_mem (l : List Date) (acc : Date) : minD l acc ∈ acc :: l := by
  induction l generalizing acc with
  | nil => simp [minD]
  | cons x xs ih =>
    have h := ih (if x.serial < acc.serial then x else acc)
    simp only [minD, List.mem_cons] at h ⊢
    by_cases hx : x.serial < acc.serial
    · rw [if_pos hx] at h ⊢
      tauto
    · rw [if_neg hx] at h ⊢
      tauto

lemma minD_le (l : List Date) (acc : Date) :
    (minD l acc).serial ≤ acc.serial ∧ ∀ d ∈ l, (minD l acc).serial ≤ d.serial := by
  induction l generalizing acc with
  | nil => exact ⟨le_refl _, by simp⟩
  | cons x xs ih =>
    obtain ⟨h1, h2⟩ := ih (if x.serial < acc.serial then x else acc)
    simp only [minD]
    have hacc : (if x.serial < acc.serial then x else acc).serial ≤ acc.serial := by
      split <;> omega
    have hx : (if x.serial < acc.serial then x else acc).serial ≤ x.serial := by
      split <;> omega
    refine ⟨le_trans h1 hacc, ?_⟩
    intro d hd
    rcases List.mem_cons.mp hd with rfl | hd
    · exact le_trans h1 hx
    · exact h2 d hd

lemma mem_userDates {rows : List Event} {u : ℕ} {d : Date} :
    d ∈ userDates rows u ↔ ∃ e ∈ rows, e.user_id = u ∧ e.date = d := by
  simp only [userDates, List.mem_map, List.mem_filter, decide_eq_true_eq]
  constructor
  · rintro ⟨e, ⟨he, hu⟩, rfl⟩
    exact ⟨e, he, hu, rfl⟩
  · rintro ⟨e, he, hu, rfl⟩
    exact ⟨e, ⟨he, hu⟩, rfl⟩

lemma userDates_ne_nil {rows : List Event} {u : ℕ}
    (h : u ∈ rows.map Event.user_id) : userDates rows u ≠ [] := by
  obtain ⟨e, he, rfl⟩ := List.mem_map.mp h
  intro hco
  have : e.date ∈ userDates rows e.user_id :=
    mem_userDates.mpr ⟨e, he, rfl, rfl⟩
  rw [hco] at this
  exact absurd this (List.not_mem_nil _)

lemma firstActivity_mem (rows : List Event) (u : ℕ) (h : userDates rows u ≠ []) :
    firstActivity rows u ∈ userDates rows u := by
  rcases hud : userDates rows u with _ | ⟨d, ds⟩
  · exact absurd hud h
  · unfold firstActivity
    rw [hud]
    exact minD_mem ds d

lemma firstActivity_min (rows : List Event) (u : ℕ) (h : userDates rows u ≠ []) :
    ∀ d ∈ userDates rows u, (firstActivity rows u).serial ≤ d.serial := by
  rcases hud : userDates rows u with _ | ⟨d0, ds0⟩
  · exact absurd hud h
  · unfold firstActivity
    rw [hud]
    intro x hx
    rcases List.mem_cons.mp hx with hx | hx
    · rw [hx]
      exact (minD_le ds0 d0).1
    · exact (minD_le ds0 d0).2 x hx

/-- Some row of the log realises a present user's first-activity date. -/
lemma exists_row_firstActivity {rows : List Event} {u : ℕ}
    (h : u ∈ rows.map Event.user_id) :
    ∃ e ∈ rows, e.user_id = u ∧ e.date = firstActivity rows u :=
  mem_userDates.mp (firstActivity_mem rows u (userDates_ne_nil h))

/-- A user's first-activity date is no later than any of the user's events. -/
lemma firstActivity_le_event {rows : List Event} {e : Event} (he : e ∈ rows) :
    (firstActivity rows e.user_id).serial ≤ e.date.serial :=
  firstActivity_min rows e.user_id
    (userDates_ne_nil (List.mem_map.mpr ⟨e, he, rfl⟩))
    e.date (mem_userDates.mpr ⟨e, he, rfl, rfl⟩)

/-- The first-activity date of a user present in a valid log is itself the
date of some row, hence valid. -/
lemma firstActivity_valid {rows : List Event} {e : Event}
    (hv : ∀ e2 ∈ rows, e2.date.Valid) (he : e ∈ rows) :
    (firstActivity rows e.user_id).Valid := by
  obtain ⟨e2, he2, _, hd⟩ :=
    exists_row_firstActivity (List.mem_map.mpr ⟨e, he, rfl⟩)
  rw [← hd]
  exact hv e2 he2

/-! ## Grouping infrastructure -/

lemma mem_sortedKeys {l : List ℕ} {x : ℕ} : x ∈ sortedKeys l ↔ x ∈ l := by
  unfold sortedKeys
  rw [(List.perm_insertionSort _ _).mem_iff, List.mem_dedup]

lemma sortedKeys_nodup (l : List ℕ) : (sortedKeys l).Nodup :=
  ((List.perm_insertionSort _ _).nodup_iff).mpr (List.nodup_dedup l)

lemma sortedKeys_sorted_lt (l : List ℕ) : (sortedKeys l).Sorted (· < ·) :=
  (List.sorted_insertionSort _ _).lt_of_le (sortedKeys_nodup l)

lemma sortedKeys_length (l : List ℕ) : (sortedKeys l).length = l.dedup.length :=
  (List.perm_insertionSort _ _).length_eq

lemma filter_cons_length {α : Type} (p : α → Bool) (x : α) (l : List α) :
    ((x :: l).filter p).length =
      (if p x then 1 else 0) + (l.filter p).length := by
  rw [List.filter_cons]
  split
  · simp [Nat.add_comm]
  · simp

lemma sum_indicator_nodup {ks : List ℕ} {v : ℕ} (hnd : ks.Nodup) (hv : v ∈ ks) :
    (ks.map (fun k => if v = k then 1 else 0)).sum = 1 := by
  induction ks with
  | nil => exact absurd hv (List.not_mem_nil v)
  | cons k ks ih =>
    obtain ⟨hk, hnd'⟩ := List.nodup_cons.mp hnd
    simp only [List.map_cons, List.sum_cons]
    rcases List.mem_cons.mp hv with rfl | hv2
    · rw [if_pos rfl]
      have hz : (ks.map (fun k2 => if v = k2 then 1 else 0)).sum = 0 := by
        apply List.sum_eq_zero
        intro x hx
        obtain ⟨k2, hk2, rfl⟩ := List.mem_map.mp hx
        rw [if_neg]
        rintro rfl
        exact hk hk2
      omega
    · rw [if_neg (by rintro rfl; exact hk hv2), ih hnd' hv2]

/-- Summing per-key group sizes over a duplicate-free covering key list gives
back the size of the grouped list. -/
lemma sum_filter_key_lengths {α : Type} (f : α → ℕ) :
    ∀ (ks : List ℕ) (l : List α), ks.Nodup → (∀ x ∈ l, f x ∈ ks) →
      (ks.map (fun k => (l.filter (fun x => f x = k)).length)).sum = l.length := by
  intro ks l hnd
  induction l with
  | nil =>
    intro _
    apply List.sum_eq_zero
    intro x hx
    obtain ⟨k, _, rfl⟩ := List.mem_map.mp hx
    simp
  | cons x l ih =>
    intro hcov
    have hx := hcov x (List.mem_cons_self x l)
    simp only [filter_cons_length, decide_eq_true_eq]
    rw [List.sum_map_add]
    rw [ih (fun y hy => hcov y (List.mem_cons_of_mem x hy))]
    have hone := sum_indicator_nodup hnd hx
    rw [hone]
    simp [List.length_cons, Nat.add_comm]

/-! ## Distinct counts as finite-set cardinalities -/

lemma nunique_eq_card (l : List ℕ) : nunique l = l.toFinset.card :=
  (List.card_toFinset l).symm

lemma map_filter_toFinset (rows : List Event) (p : Event → Bool) :
    ((rows.filter p).map Event.user_id).toFinset =
      Finset.image Event.user_id (rows.toFinset.filter (fun e => p e = true)) := by
  ext b
  simp [List.mem_filter]

lemma nunique_filter_eq_card (rows : List Event) (p : Event → Bool) :
    nunique ((rows.filter p).map Event.user_id) =
      (Finset.image Event.user_id (rows.toFinset.filter (fun e => p e = true))).card := by
  rw [nunique_eq_card, map_filter_toFinset]

/-! ## Retention lemmas -/

lemma within_users_toFinset (rows : List Event) (n : ℕ) :
    ((withinRows rows n).map Event.user_id).toFinset =
      (rows.map Event.user_id).toFinset := by
  ext u
  simp only [List.mem_toFinset]
  constructor
  · intro hu
    obtain ⟨e, hef, rfl⟩ := List.mem_map.mp hu
    exact List.mem_map.mpr ⟨e, (List.mem_filter.mp hef).1, rfl⟩
  · intro hu
    obtain ⟨e, he, hue, hde⟩ := exists_row_firstActivity hu
    refine List.mem_map.mpr ⟨e, List.mem_filter.mpr ⟨he, ?_⟩, hue⟩
    simp only [decide_eq_true_eq]
    rw [hue, hde]
    omega

lemma nunique_within (rows : List Event) (n : ℕ) :
    nunique ((withinRows rows n).map Event.user_id) =
      ((rows.map Event.user_id)).dedup.length := by
  rw [nunique_eq_card, within_users_toFinset, List.card_toFinset]

lemma users_dedup_length_ne_zero {df : DataFrame} (h : df.rows ≠ []) :
    ((df.rows.map Event.user_id).dedup).length ≠ 0 := by
  cases hr : df.rows with
  | nil => exact absurd hr h
  | cons e l =>
    intro h0
    have hm : e.user_id ∈ ((List.map Event.user_id (e :: l))).dedup :=
      List.mem_dedup.mpr (List.mem_map.mpr ⟨e, List.mem_cons_self e l, rfl⟩)
    rw [List.length_eq_zero.mp h0] at hm
    exact absurd hm (List.not_mem_nil _)

/-- The ratios the program actually returns: with no lower window bound in the
source, every user's own first event qualifies, so both are `1`. -/
lemma retention_eq_one {df : DataFrame} (h : df.rows ≠ []) :
    calculate_retention df = .ok (1, 1) := by
  have hlen := users_dedup_length_ne_zero h
  have hc : (((df.rows.map Event.user_id).dedup.length : ℚ)) ≠ 0 :=
    Nat.cast_ne_zero.mpr hlen
  simp only [calculate_retention]
  rw [if_neg hlen, nunique_within df.rows 7, nunique_within df.rows 30, div_self hc]

lemma mem_within_iff (rows : List Event) (n u : ℕ) :
    u ∈ (withinRows rows n).map Event.user_id ↔
      ∃ e ∈ rows, e.user_id = u ∧
        (firstActivity rows u).serial ≤ e.date.serial ∧
        e.date.serial ≤ (firstActivity rows u).serial + n := by
  unfold withinRows
  constructor
  · intro hu
    obtain ⟨e, hef, rfl⟩ := List.mem_map.mp hu
    obtain ⟨he, hp⟩ := List.mem_filter.mp hef
    simp only [decide_eq_true_eq] at hp
    exact ⟨e, he, rfl, firstActivity_le_event he, hp⟩
  · rintro ⟨e, he, rfl, _, hp⟩
    exact List.mem_map.mpr ⟨e, List.mem_filter.mpr ⟨he, by simp [hp]⟩, rfl⟩

/-! ## Acquisition lemmas -/

lemma firstActivityRows_users (rows : List Event) :
    (firstActivityRows rows).map Event.user_id = (rows.map Event.user_id).dedup := by
  unfold firstActivityRows
  rw [List.map_map]
  have hid : (Event.user_id ∘ fun u => (⟨u, firstActivity rows u⟩ : Event)) = id := rfl
  rw [hid, List.map_id]

lemma firstActivityRows_length (rows : List Event) :
    (firstActivityRows rows).length = (rows.map Event.user_id).dedup.length := by
  unfold firstActivityRows
  rw [List.length_map]

lemma nunique_filter_fa (rows : List Event) (k : ℕ) :
    nunique (((firstActivityRows rows).filter
        (fun e => e.date.monthIdx = k)).map Event.user_id) =
      ((firstActivityRows rows).filter (fun e => e.date.monthIdx = k)).length := by
  have h1 : ((firstActivityRows rows).map Event.user_id).Nodup := by
    rw [firstActivityRows_users]
    exact List.nodup_dedup _
  have hsub : List.Sublist
      (((firstActivityRows rows).filter
        (fun e => e.date.monthIdx = k)).map Event.user_id)
      ((firstActivityRows rows).map Event.user_id) :=
    (List.filter_sublist _).map _
  have hnd := List.Nodup.sublist hsub h1
  unfold nunique
  rw [List.dedup_eq_self.mpr hnd, List.length_map]

/-! ## Frame-effect lemmas -/

lemma setCol_rows (df : DataFrame) (c : ColName) (v : List ℤ) :
    (setCol df c v).rows = df.rows := by
  unfold setCol
  split <;> rfl

lemma cohort_analysis_rows (df : DataFrame) :
    (cohort_analysis df).2.rows = df.rows := by
  simp only [cohort_analysis]
  split <;> simp [setCol_rows]

lemma monthly_churn_rows (df : DataFrame) :
    (calculate_monthly_churn df).2.rows = df.rows := by
  simp only [calculate_monthly_churn]
  split
  · simp [setCol_rows]
  · split <;> simp [setCol_rows]

lemma average_churn_rows (df : DataFrame) :
    (calculate_average_churn df).2.rows = df.rows := by
  have h := monthly_churn_rows df
  simp only [calculate_average_churn]
  split
  next e df' heq =>
    rw [heq] at h
    exact h
  next entries df' heq =>
    rw [heq] at h
    exact h

/-! ## Concrete logs used as witnesses and counterexamples -/

/-- The single-event log of the spec's degenerate scenario. -/
def logSingle : DataFrame := ⟨[⟨1, ⟨2023, 1, 1⟩⟩], []⟩

/-- A log whose two events are two calendar months apart, leaving the month in
between without events. -/
def logGap : DataFrame := ⟨[⟨1, ⟨2023, 1, 5⟩⟩, ⟨2, ⟨2023, 3, 5⟩⟩], []⟩

/-- The spec's two-user concrete scenario over 2023-01 and 2023-02. -/
def logPair : DataFrame :=
  ⟨[⟨1, ⟨2023, 1, 5⟩⟩, ⟨1, ⟨2023, 2, 10⟩⟩, ⟨2, ⟨2023, 1, 20⟩⟩, ⟨2, ⟨2023, 2, 1⟩⟩], []⟩

/-! ## Churn lemmas -/

lemma churnEntries_ok (rows : List Event) (monthsAll : List ℕ) :
    ∀ l : List ℕ, (∀ m ∈ l, m + 1 ∈ monthsAll) →
      churnEntries rows monthsAll l = .ok (l.map (fun m =>
        (m, ((monthlyUsers rows m).filter
          (fun u => u ∉ monthlyUsers rows (m + 1))).length))) := by
  intro l
  induction l with
  | nil => intro _; rfl
  | cons m ms ih =>
    intro hcov
    simp only [churnEntries]
    rw [if_pos (hcov m (List.mem_cons_self m ms))]
    rw [ih (fun x hx => hcov x (List.mem_cons_of_mem m hx))]
    rfl

/-- On a gap-free log spanning at least two months, the churn computation
succeeds and returns one entry per non-final month. -/
lemma monthly_churn_ok (df : DataFrame)
    (h2 : 2 ≤ (sortedKeys (df.rows.map (fun e => e.date.monthIdx))).length)
    (hcontig : ∀ m ∈ (sortedKeys (df.rows.map (fun e => e.date.monthIdx))).dropLast,
      m + 1 ∈ sortedKeys (df.rows.map (fun e => e.date.monthIdx))) :
    (calculate_monthly_churn df).1 = .ok
      ((sortedKeys (df.rows.map (fun e => e.date.monthIdx))).dropLast.map (fun m =>
        (firstOfMonthSerial m,
          ((monthlyUsers df.rows m).filter
            (fun u => u ∉ monthlyUsers df.rows (m + 1))).length))) := by
  have hok := churnEntries_ok df.rows
    (sortedKeys (df.rows.map (fun e => e.date.monthIdx)))
    (sortedKeys (df.rows.map (fun e => e.date.monthIdx))).dropLast hcontig
  have hne : ((sortedKeys (df.rows.map (fun e => e.date.monthIdx))).dropLast.map
      (fun m => (m, ((monthlyUsers df.rows m).filter
        (fun u => u ∉ monthlyUsers df.rows (m + 1))).length))).isEmpty = false := by
    rw [← Bool.not_eq_true, List.isEmpty_iff, ← List.length_eq_zero,
      List.length_map, List.length_dropLast]
    omega
  simp only [calculate_monthly_churn, hok, hne, Bool.false_eq_true, if_false,
    List.map_map]
  rfl

lemma monthlyUsers_nodup (rows : List Event) (m : ℕ) : (monthlyUsers rows m).Nodup := by
  unfold monthlyUsers
  exact List.nodup_dedup _

lemma filter_not_mem_card (A B : List ℕ) (hA : A.Nodup) :
    (A.filter (fun u => u ∉ B)).length = (A.toFinset \ B.toFinset).card := by
  have hnd : (A.filter (fun u => u ∉ B)).Nodup :=
    List.Nodup.sublist (List.filter_sublist _) hA
  have h1 : (A.filter (fun u => u ∉ B)).length =
      (A.filter (fun u => u ∉ B)).toFinset.card := by
    rw [List.card_toFinset, List.dedup_eq_self.mpr hnd]
  rw [h1]
  congr 1
  ext u
  simp [List.mem_filter]

/-! ## Cohort lemmas -/

lemma eventOffset_nonneg {df : DataFrame} (hv : ∀ e ∈ df.rows, e.date.Valid) :
    ∀ e ∈ df.rows, 0 ≤ eventOffset df.rows e := by
  intro e he
  unfold eventOffset
  have hle := monthIdx_le_of_serial_le (firstActivity_valid hv he) (hv e he)
    (firstActivity_le_event he)
  omega

/-- Each user's earliest row realises cohort-period `0` within that user's
cohort. -/
lemma exists_zero_offset {rows : List Event} {e : Event} (he : e ∈ rows) :
    ∃ e2 ∈ rows, e2.user_id = e.user_id ∧ eventOffset rows e2 = 0 ∧
      eventCohort rows e2 = eventCohort rows e := by
  obtain ⟨e2, he2, hu, hd⟩ :=
    exists_row_firstActivity (List.mem_map.mpr ⟨e, he, rfl⟩)
  refine ⟨e2, he2, hu, ?_, ?_⟩
  · unfold eventOffset
    rw [hu, hd]
    omega
  · unfold eventCohort
    rw [hu]

lemma mem_cohortPairs {rows : List Event} {cp : ℤ × ℤ} :
    cp ∈ cohortPairs rows ↔
      cp ∈ rows.map (fun e => (eventCohort rows e, eventOffset rows e)) := by
  unfold cohortPairs
  rw [(List.perm_insertionSort _ _).mem_iff, List.mem_dedup]

lemma foldl_min_le (xs : List ℤ) (x : ℤ) :
    xs.foldl min x ≤ x ∧ ∀ y ∈ xs, xs.foldl min x ≤ y := by
  induction xs generalizing x with
  | nil => exact ⟨le_refl _, by simp⟩
  | cons z zs ih =>
    obtain ⟨h1, h2⟩ := ih (min x z)
    simp only [List.foldl_cons]
    refine ⟨le_trans h1 (min_le_left x z), ?_⟩
    intro y hy
    rcases List.mem_cons.mp hy with hz | hy2
    · rw [hz]
      exact le_trans h1 (min_le_right x z)
    · exact h2 y hy2

lemma foldl_min_mem (xs : List ℤ) (x : ℤ) :
    xs.foldl min x = x ∨ xs.foldl min x ∈ xs := by
  induction xs generalizing x with
  | nil => exact Or.inl rfl
  | cons z zs ih =>
    simp only [List.foldl_cons, List.mem_cons]
    rcases ih (min x z) with h | h
    · rcases min_choice x z with hc | hc
      · rw [h, hc]
        tauto
      · rw [h, hc]
        tauto
    · tauto

/-- On a non-empty valid log the pivot's first column is the one of
cohort-period `0`. -/
lemma minObservedOffset_eq_zero {df : DataFrame}
    (hv : ∀ e ∈ df.rows, e.date.Valid) (hne : df.rows ≠ []) :
    minObservedOffset df.rows = 0 := by
  have hnonneg : ∀ y ∈ (cohortPairs df.rows).map Prod.snd, 0 ≤ y := by
    intro y hy
    obtain ⟨cp, hcp, rfl⟩ := List.mem_map.mp hy
    obtain ⟨e, he, hecp⟩ := List.mem_map.mp (mem_cohortPairs.mp hcp)
    rw [← hecp]
    exact eventOffset_nonneg hv e he
  have hzero : (0 : ℤ) ∈ (cohortPairs df.rows).map Prod.snd := by
    obtain ⟨e, he⟩ := List.exists_mem_of_ne_nil df.rows hne
    obtain ⟨e2, he2, _, hoff, _⟩ := exists_zero_offset he
    refine List.mem_map.mpr ⟨(eventCohort df.rows e2, eventOffset df.rows e2),
      mem_cohortPairs.mpr (List.mem_map.mpr ⟨e2, he2, rfl⟩), ?_⟩
    rw [hoff]
  unfold minObservedOffset
  rcases hsnds : (cohortPairs df.rows).map Prod.snd with _ | ⟨x, xs⟩
  · rfl
  · rw [hsnds] at hnonneg hzero
    show xs.foldl min x = 0
    obtain ⟨hlex, hlemem⟩ := foldl_min_le xs x
    have hle0 : xs.foldl min x ≤ 0 := by
      rcases List.mem_cons.mp hzero with h0 | h0
      · exact le_of_le_of_eq hlex h0.symm
      · exact hlemem 0 h0
    have hge0 : 0 ≤ xs.foldl min x := by
      rcases foldl_min_mem xs x with h | h
      · rw [h]
        exact hnonneg x (List.mem_cons_self x xs)
      · exact hnonneg _ (List.mem_cons_of_mem x h)
    omega

lemma groupNunique_zero_pos {rows : List Event} {e : Event} (he : e ∈ rows) :
    1 ≤ groupNunique rows (eventCohort rows e) 0 := by
  obtain ⟨e2, he2, _, hoff, hcoh⟩ := exists_zero_offset he
  unfold groupNunique nunique
  have hm : e2.user_id ∈ ((rows.filter (fun e2 => eventCohort rows e2 = eventCohort rows e ∧
      eventOffset rows e2 = 0)).map Event.user_id).dedup := by
    refine List.mem_dedup.mpr (List.mem_map.mpr ⟨e2, List.mem_filter.mpr ⟨he2, ?_⟩, rfl⟩)
    simp [hcoh, hoff]
  have := List.ne_nil_of_mem hm
  cases hq : ((rows.filter (fun e2 => eventCohort rows e2 = eventCohort rows e ∧
      eventOffset rows e2 = 0)).map Event.user_id).dedup with
  | nil => exact absurd hq this
  | cons a l =>
    simp only [List.length_cons]
    omega

lemma cohortSize_eq_zero_count {df : DataFrame}
    (hv : ∀ e ∈ df.rows, e.date.Valid) (hne : df.rows ≠ []) {c : ℤ}
    (hc : ∃ e ∈ df.rows, eventCohort df.rows e = c) :
    cohortSize df.rows c = some (groupNunique df.rows c 0) := by
  obtain ⟨e, he, hec⟩ := hc
  obtain ⟨e2, he2, _, hoff, hcoh⟩ := exists_zero_offset he
  unfold cohortSize
  rw [minObservedOffset_eq_zero hv hne]
  rw [if_pos]
  refine List.mem_map.mpr ⟨e2, he2, ?_⟩
  rw [hoff, hcoh, hec]

lemma groupNunique_eq_card (rows : List Event) (c p : ℤ) :
    groupNunique rows c p = (Finset.image Event.user_id (rows.toFinset.filter
      (fun e => eventCohort rows e = c ∧ eventOffset rows e = p))).card := by
  unfold groupNunique
  rw [nunique_filter_eq_card]
  apply congrArg Finset.card
  apply congrArg (Finset.image Event.user_id)
  apply Finset.filter_congr
  intro e _
  simp [decide_eq_true_eq]

lemma ratFloor_eq_intFloor (q : ℚ) : q.floor = ⌊q⌋ := by
  rw [Rat.floor_def, Rat.floor_def']

lemma round3_one : round3 1 = 1 := by
  unfold round3 roundHalfEven
  rw [ratFloor_eq_intFloor]
  norm_num

/-! ## Active-users lemmas -/

lemma keyTimestamp_map_day (l : List ℕ) :
    l.map (keyTimestamp PeriodKind.dayPeriod) = l := by
  induction l with
  | nil => rfl
  | cons x xs ih => simp [keyTimestamp, ih]

lemma keyTimestamp_map_week (l : List ℕ) :
    l.map (keyTimestamp PeriodKind.weekPeriod) = l := by
  induction l with
  | nil => rfl
  | cons x xs ih => simp [keyTimestamp, ih]

lemma sorted_map_fms {l : List ℕ} (hs : l.Sorted (· < ·)) (h12 : ∀ k ∈ l, 12 ≤ k) :
    (l.map firstOfMonthSerial).Sorted (· < ·) := by
  induction l with
  | nil => simp
  | cons k ks ih =>
    obtain ⟨hk, hks⟩ := List.sorted_cons.mp hs
    rw [List.map_cons]
    refine List.sorted_cons.mpr ⟨?_, ih hks (fun x hx => h12 x (List.mem_cons_of_mem k hx))⟩
    intro b hb
    obtain ⟨k2, hk2, rfl⟩ := List.mem_map.mp hb
    exact firstOfMonthSerial_lt (h12 k (List.mem_cons_self k ks)) (hk k2 hk2)

/-! ## The claims -/

/-- Claim C1 (counterexample): on a log with events only in 2023-01 and
2023-03, the month 2023-02 is absent and `calculate_monthly_churn` raises
`KeyError` instead of succeeding with `churn(2023-01) = |users(2023-01)|`. -/
theorem claim_C1_counterexample :
    (calculate_monthly_churn logGap).1 = .error .keyErr := by
  rfl

/-- Claim C1 (amended): for every event log spanning at least two calendar
months with every non-final month followed by a month carrying events,
`monthly_churn` returns, for each month `M` except the chronologically last,
the entry `churn(M) = |users(M) \ users(M+1)|` keyed by the start of `M`; but
when the arithmetically next month `M+1` has no events in the log, the lookup
`monthly_users[month + 1]` raises `KeyError`: the computation fails rather
than treating the absent month as an empty user set. -/
theorem claim_C1 (df : DataFrame)
    (h2 : 2 ≤ (sortedKeys (df.rows.map (fun e => e.date.monthIdx))).length)
    (hcontig : ∀ m ∈ (sortedKeys (df.rows.map (fun e => e.date.monthIdx))).dropLast,
      m + 1 ∈ sortedKeys (df.rows.map (fun e => e.date.monthIdx))) :
    (calculate_monthly_churn df).1 = .ok
      ((sortedKeys (df.rows.map (fun e => e.date.monthIdx))).dropLast.map (fun m =>
        (firstOfMonthSerial m,
          ((monthlyUsers df.rows m).toFinset \
            (monthlyUsers df.rows (m + 1)).toFinset).card))) := by
  rw [monthly_churn_ok df h2 hcontig]
  congr 1
  apply List.map_congr_left
  intro m _
  rw [filter_not_mem_card (monthlyUsers df.rows m) (monthlyUsers df.rows (m + 1))
    (monthlyUsers_nodup df.rows m)]

/-- Witness for C1: the gap-free two-month log `logPair` satisfies the
hypotheses and its churn series is computed as stated. -/
theorem claim_C1_witness :
    (calculate_monthly_churn logPair).1 = .ok
      ((sortedKeys (logPair.rows.map (fun e => e.date.monthIdx))).dropLast.map (fun m =>
        (firstOfMonthSerial m,
          ((monthlyUsers logPair.rows m).toFinset \
            (monthlyUsers logPair.rows (m + 1)).toFinset).card))) :=
  claim_C1 logPair (by decide) (by decide)

/-- Claim C2 (counterexample): on the single-event log the churn series is
empty and `calculate_average_churn` fails with `AttributeError` (raised while
converting the index of the empty series), not with the division-based
condition the claim names. -/
theorem claim_C2_counterexample :
    (calculate_average_churn logSingle).1 = .error .attributeErr ∧
      (calculate_average_churn logSingle).1 ≠ .error .zeroDivisionErr := by
  have h : (calculate_average_churn logSingle).1 = .error .attributeErr := by rfl
  refine ⟨h, ?_⟩
  rw [h]
  intro hco
  exact PyError.noConfusion (Except.error.inj hco)

/-- Claim C2 (amended): whenever the log spans at most one calendar month (so
the churn series is empty), `average_churn` does fail rather than silently
returning `0` or `NaN`, but the failure is an `AttributeError` raised while
building the empty churn series, not a `DivisionUndefined`/`ZeroDivisionError`
condition: the zero-denominator mean is never reached. -/
theorem claim_C2 (df : DataFrame)
    (h1 : (sortedKeys (df.rows.map (fun e => e.date.monthIdx))).length ≤ 1) :
    (calculate_average_churn df).1 = .error .attributeErr := by
  have hch : (calculate_monthly_churn df).1 = .error .attributeErr := by
    simp only [calculate_monthly_churn]
    have hdl : (sortedKeys (df.rows.map (fun e => e.date.monthIdx))).dropLast = [] := by
      rw [← List.length_eq_zero, List.length_dropLast]
      omega
    rw [hdl]
    rfl
  simp only [calculate_average_churn]
  split
  next e df' heq =>
    rw [heq] at hch
    have he : e = PyError.attributeErr := Except.error.inj hch
    rw [he]
  next entries df' heq =>
    rw [heq] at hch
    exact absurd hch (by simp)

/-- Witness for C2: the single-event log spans one month and the average churn
fails with `AttributeError`. -/
theorem claim_C2_witness :
    (calculate_average_churn logSingle).1 = .error .attributeErr :=
  claim_C2 logSingle (by decide)

/-- Claim C3 (counterexample): `cohort_analysis` modifies the `DataFrame` it
consumes — it writes the derived `Cohort` and `CohortPeriod` columns onto the
caller's frame in place, so the frame after the call differs from the frame
passed in. -/
theorem claim_C3_counterexample :
    (cohort_analysis logSingle).2 ≠ logSingle := by
  decide

/-- Claim C3 (amended): no metric computation modifies the `(user_id, date)`
event rows of the log it consumes — the row list is unchanged by
`cohort_analysis`, `calculate_monthly_churn` and `calculate_average_churn`
(and the remaining computations return fresh values without touching the
frame at all) — but those three do mutate the consumed `DataFrame` itself by
writing the derived `Cohort`, `CohortPeriod` and `Month` columns onto it. -/
theorem claim_C3 (df : DataFrame) :
    (cohort_analysis df).2.rows = df.rows ∧
      (calculate_monthly_churn df).2.rows = df.rows ∧
      (calculate_average_churn df).2.rows = df.rows :=
  ⟨cohort_analysis_rows df, monthly_churn_rows df, average_churn_rows df⟩

/-- Claim C4: the per-month counts of `new_users_per_month` (the acquisition
view) sum to the total number of distinct users of the log: each user lands in
exactly one bucket, the month of their first activity. -/
theorem claim_C4 (df : DataFrame) :
    ((user_acquisition df).map Prod.snd).sum =
      (df.rows.map Event.user_id).toFinset.card := by
  unfold user_acquisition
  rw [List.map_map]
  have hstep : ∀ k ∈ sortedKeys ((firstActivityRows df.rows).map
      (fun e => e.date.monthIdx)),
      (Prod.snd ∘ fun k => (firstOfMonthSerial k,
        nunique (((firstActivityRows df.rows).filter
          (fun e => e.date.monthIdx = k)).map Event.user_id))) k =
        ((firstActivityRows df.rows).filter (fun e => e.date.monthIdx = k)).length :=
    fun k _ => nunique_filter_fa df.rows k
  rw [List.map_congr_left hstep]
  rw [sum_filter_key_lengths (fun e => e.date.monthIdx)
    (sortedKeys ((firstActivityRows df.rows).map (fun e => e.date.monthIdx)))
    (firstActivityRows df.rows) (sortedKeys_nodup _)
    (fun x hx => mem_sortedKeys.mpr (List.mem_map.mpr ⟨x, hx, rfl⟩))]
  rw [firstActivityRows_length, List.card_toFinset]

/-- Claim C10: for every non-empty event log `retention` returns exactly
`(1.0, 1.0)`: the source's window test `date <= first_activity + N days` has
no lower bound, every user's own first event satisfies it for `N = 7` and
`N = 30`, so every distinct user is counted in both numerators. -/
theorem claim_C10 (df : DataFrame) (h : df.rows ≠ []) :
    calculate_retention df = .ok (1, 1) :=
  retention_eq_one h

/-- Witness for C10: the single-event log is non-empty and its retention pair
is exactly `(1, 1)`. -/
theorem claim_C10_witness : calculate_retention logSingle = .ok (1, 1) :=
  claim_C10 logSingle (by decide)

/-- Claim C5: for every non-empty event log, `retention` succeeds and both the
7-day and the 30-day ratio lie in `(0, 1]`; a user is retained at `N` days iff
one of their events falls in the inclusive window
`[first_activity, first_activity + N days]`; and when no user has any activity
after their first event both ratios equal exactly `1.0` — the degenerate case
succeeds rather than failing. -/
theorem claim_C5 (df : DataFrame) (h : df.rows ≠ []) :
    ∃ r7 r30 : ℚ, calculate_retention df = .ok (r7, r30) ∧
      0 < r7 ∧ r7 ≤ 1 ∧ 0 < r30 ∧ r30 ≤ 1 ∧
      (∀ n u, n = 7 ∨ n = 30 →
        (u ∈ (withinRows df.rows n).map Event.user_id ↔
          ∃ e ∈ df.rows, e.user_id = u ∧
            (firstActivity df.rows u).serial ≤ e.date.serial ∧
            e.date.serial ≤ (firstActivity df.rows u).serial + n)) ∧
      ((∀ e ∈ df.rows, e.date.serial ≤ (firstActivity df.rows e.user_id).serial) →
        r7 = 1 ∧ r30 = 1) := by
  refine ⟨1, 1, retention_eq_one h, by norm_num, by norm_num, by norm_num, by norm_num,
    ?_, fun _ => ⟨rfl, rfl⟩⟩
  intro n u _
  exact mem_within_iff df.rows n u

/-- Witness for C5: the spec's two-user scenario log is non-empty and
satisfies every clause of C5. -/
theorem claim_C5_witness :
    ∃ r7 r30 : ℚ, calculate_retention logPair = .ok (r7, r30) ∧
      0 < r7 ∧ r7 ≤ 1 ∧ 0 < r30 ∧ r30 ≤ 1 ∧
      (∀ n u, n = 7 ∨ n = 30 →
        (u ∈ (withinRows logPair.rows n).map Event.user_id ↔
          ∃ e ∈ logPair.rows, e.user_id = u ∧
            (firstActivity logPair.rows u).serial ≤ e.date.serial ∧
            e.date.serial ≤ (firstActivity logPair.rows u).serial + n)) ∧
      ((∀ e ∈ logPair.rows, e.date.serial ≤ (firstActivity logPair.rows e.user_id).serial) →
        r7 = 1 ∧ r30 = 1) :=
  claim_C5 logPair (by decide)

/-- Claim C8: `rolling_active` returns one count per caller-supplied query
date, in the same order, and the count for query date `D` is the number of
distinct users having at least one event dated within the inclusive trailing
window `[D - 29 days, D]`. -/
theorem claim_C8 (df : DataFrame) (ds : List Date) :
    (calculate_a30 df ds).length = ds.length ∧
      calculate_a30 df ds = ds.map (fun d =>
        (Finset.image Event.user_id (df.rows.toFinset.filter (fun e =>
          (d.serial : ℤ) - 29 ≤ (e.date.serial : ℤ) ∧ e.date.serial ≤ d.serial))).card) := by
  constructor
  · unfold calculate_a30
    exact List.length_map _ _
  · unfold calculate_a30
    apply List.map_congr_left
    intro d _
    rw [nunique_filter_eq_card]
    apply congrArg Finset.card
    apply congrArg (Finset.image Event.user_id)
    apply Finset.filter_congr
    intro e _
    simp [decide_eq_true_eq]

/-- Claim C7: the `CohortPeriod` value computed for every event of a valid log
(the whole-month difference between the event's month and the month of the
user's minimum date) is never negative. -/
theorem claim_C7 (df : DataFrame) (hv : ∀ e ∈ df.rows, e.date.Valid) :
    ∀ v ∈ df.rows.map (fun e => eventOffset df.rows e), 0 ≤ v := by
  intro v hvm
  obtain ⟨e, he, rfl⟩ := List.mem_map.mp hvm
  exact eventOffset_nonneg hv e he

/-- Witness for C7: all dates of the two-user scenario log are valid, and the
cohort period of its second event (user 1 active on 2023-02-10, one month
after that user's 2023-01 cohort) is non-negative. -/
theorem claim_C7_witness :
    (∀ e ∈ logPair.rows, e.date.Valid) ∧
      0 ≤ eventOffset logPair.rows ⟨1, ⟨2023, 2, 10⟩⟩ :=
  ⟨by decide, claim_C7 logPair (by decide)
    (eventOffset logPair.rows ⟨1, ⟨2023, 2, 10⟩⟩) (by decide)⟩

/-- Claim C6: on a non-empty valid log `cohort_analysis` succeeds and returns
the sparse retention matrix in which every observed `(Cohort, CohortPeriod)`
cell holds the distinct-user count of that cell divided by the cohort's size
(its distinct-user count at `CohortPeriod` 0), rounded to three decimals; in
particular every cohort present has the entry `1.0` at `CohortPeriod` 0. -/
theorem claim_C6 (df : DataFrame) (hne : df.rows ≠ [])
    (hv : ∀ e ∈ df.rows, e.date.Valid) :
    (cohort_analysis df).1 = .ok (retMatrix df.rows) ∧
      (∀ cp ∈ cohortPairs df.rows,
        ((cp.1, 0), some (1 : ℚ)) ∈ retMatrix df.rows) ∧
      (∀ x ∈ retMatrix df.rows, x.2 = some (round3
        (((Finset.image Event.user_id (df.rows.toFinset.filter
            (fun e => eventCohort df.rows e = x.1.1 ∧
              eventOffset df.rows e = x.1.2))).card : ℚ) /
          ((Finset.image Event.user_id (df.rows.toFinset.filter
            (fun e => eventCohort df.rows e = x.1.1 ∧
              eventOffset df.rows e = 0))).card : ℚ)))) := by
  have hie : df.rows.isEmpty = false := by
    rw [← Bool.not_eq_true, List.isEmpty_iff]
    exact hne
  refine ⟨by simp only [cohort_analysis, hie, Bool.false_eq_true, if_false], ?_, ?_⟩
  · intro cp hcp
    obtain ⟨e, he, hecp⟩ := List.mem_map.mp (mem_cohortPairs.mp hcp)
    have hec : eventCohort df.rows e = cp.1 := by rw [← hecp]
    obtain ⟨e2, he2, _, hoff, hcoh⟩ := exists_zero_offset he
    have hpair0 : ((cp.1, 0) : ℤ × ℤ) ∈ cohortPairs df.rows := by
      apply mem_cohortPairs.mpr
      refine List.mem_map.mpr ⟨e2, he2, ?_⟩
      rw [hoff, hcoh, hec]
    refine List.mem_map.mpr ⟨(cp.1, 0), hpair0, ?_⟩
    rw [cohortSize_eq_zero_count hv hne ⟨e, he, hec⟩]
    have hpos := groupNunique_zero_pos he
    rw [hec] at hpos
    have hq : ((groupNunique df.rows cp.1 0 : ℕ) : ℚ) ≠ 0 :=
      Nat.cast_ne_zero.mpr (by omega)
    simp only [Option.map_some']
    rw [div_self hq, round3_one]
  · intro x hx
    obtain ⟨cp, hcp, hxe⟩ := List.mem_map.mp hx
    obtain ⟨e, he, hecp⟩ := List.mem_map.mp (mem_cohortPairs.mp hcp)
    have hec : eventCohort df.rows e = cp.1 := by rw [← hecp]
    subst hxe
    dsimp only
    rw [cohortSize_eq_zero_count hv hne ⟨e, he, hec⟩]
    simp only [Option.map_some']
    rw [groupNunique_eq_card df.rows cp.1 cp.2, groupNunique_eq_card df.rows cp.1 0]

/-- Witness for C6: the two-user scenario log is non-empty, all its dates are
valid, and its retention matrix satisfies every clause of C6. -/
theorem claim_C6_witness :
    (cohort_analysis logPair).1 = .ok (retMatrix logPair.rows) ∧
      (∀ cp ∈ cohortPairs logPair.rows,
        ((cp.1, 0), some (1 : ℚ)) ∈ retMatrix logPair.rows) ∧
      (∀ x ∈ retMatrix logPair.rows, x.2 = some (round3
        (((Finset.image Event.user_id (logPair.rows.toFinset.filter
            (fun e => eventCohort logPair.rows e = x.1.1 ∧
              eventOffset logPair.rows e = x.1.2))).card : ℚ) /
          ((Finset.image Event.user_id (logPair.rows.toFinset.filter
            (fun e => eventCohort logPair.rows e = x.1.1 ∧
              eventOffset logPair.rows e = 0))).card : ℚ)))) :=
  claim_C6 logPair (by decide) (by decide)

/-- Claim C9: for every valid log and every period kind, `active_users`
returns the per-bucket distinct-user counts keyed by the bucket's start date,
sorted strictly ascending by that start date, where a user active on several
dates of one bucket counts once; an empty log yields the empty sequence
rather than an error. -/
theorem claim_C9 (df : DataFrame) (p : PeriodKind)
    (hv : ∀ e ∈ df.rows, e.date.Valid) :
    ((calculate_active_users df p).map Prod.fst).Sorted (· < ·) ∧
      calculate_active_users df p =
        (sortedKeys (df.rows.map (fun e => bucketKey p e.date))).map (fun k =>
          (keyTimestamp p k, (Finset.image Event.user_id (df.rows.toFinset.filter
            (fun e => bucketKey p e.date = k))).card)) ∧
      (df.rows = [] → calculate_active_users df p = []) := by
  refine ⟨?_, ?_, ?_⟩
  · have hkeys := sortedKeys_sorted_lt (df.rows.map (fun e => bucketKey p e.date))
    unfold calculate_active_users
    rw [List.map_map]
    have hcomp : (Prod.fst ∘ fun k => (keyTimestamp p k,
        nunique ((df.rows.filter (fun e => bucketKey p e.date = k)).map Event.user_id))) =
        keyTimestamp p := rfl
    rw [hcomp]
    cases p with
    | dayPeriod =>
      rw [keyTimestamp_map_day]
      exact hkeys
    | weekPeriod =>
      rw [keyTimestamp_map_week]
      exact hkeys
    | monthPeriod =>
      have hfm : (sortedKeys (df.rows.map
          (fun e => bucketKey PeriodKind.monthPeriod e.date))).map
            (keyTimestamp PeriodKind.monthPeriod) =
          (sortedKeys (df.rows.map
            (fun e => bucketKey PeriodKind.monthPeriod e.date))).map
              firstOfMonthSerial :=
        List.map_congr_left (fun k _ => rfl)
      rw [hfm]
      apply sorted_map_fms hkeys
      intro k hk
      obtain ⟨e, he, hbe⟩ := List.mem_map.mp (mem_sortedKeys.mp hk)
      rw [← hbe]
      exact monthIdx_ge_twelve (hv e he)
  · unfold calculate_active_users
    apply List.map_congr_left
    intro k _
    have hn : nunique ((df.rows.filter (fun e => bucketKey p e.date = k)).map
        Event.user_id) = (Finset.image Event.user_id (df.rows.toFinset.filter
          (fun e => bucketKey p e.date = k))).card := by
      rw [nunique_filter_eq_card]
      apply congrArg Finset.card
      apply congrArg (Finset.image Event.user_id)
      apply Finset.filter_congr
      intro e _
      simp [decide_eq_true_eq]
    rw [hn]
  · intro h
    unfold calculate_active_users
    rw [h]
    rfl

/-- Witness for C9: the two-user scenario log has valid dates and its monthly
active-user series satisfies every clause of C9. -/
theorem claim_C9_witness :
    ((calculate_active_users logPair PeriodKind.monthPeriod).map Prod.fst).Sorted (· < ·) ∧
      calculate_active_users logPair PeriodKind.monthPeriod =
        (sortedKeys (logPair.rows.map
          (fun e => bucketKey PeriodKind.monthPeriod e.date))).map (fun k =>
            (keyTimestamp PeriodKind.monthPeriod k,
              (Finset.image Event.user_id (logPair.rows.toFinset.filter
                (fun e => bucketKey PeriodKind.monthPeriod e.date = k))).card)) ∧
      (logPair.rows = [] → calculate_active_users logPair PeriodKind.monthPeriod = []) :=
  claim_C9 logPair PeriodKind.monthPeriod (by decide)

end UserAnalytics
